import Mathlib

/-!
Shallow embedding of the TwitchTracker scraper (src/app.py and src/scraper.py)
and verification of its specification claims.

The HTML structure seen by the code is modelled by the pieces of markup the
code actually inspects: a row is the list of its hyperlinks (an `<a href=...>`
element is a pair of visible text and target), a document carries the optional
`#channels` table with its optional `tbody` of rows, and the optional
pagination control with its optional next button (represented by that
button's class list).  A page fetch either fails (network error or non-2xx
status) or yields such a document.  Network, time and file effects are made
explicit: the extractors additionally return how many fetches were attempted,
how many politeness delays were performed, and the CSV text that is written.
-/

/-- An `<a href=...>` element as the code observes it: visible text
(`get_text(strip=True)`) and target (`href` attribute). -/
structure Link where
  text : String
  href : String
deriving DecidableEq

/-- A table row, as the list of its hyperlinks in document order
(`row.find_all('a', href=True)`). -/
abbrev Row := List Link

/-- The `#channels` table: its optional `tbody`, holding the rows. -/
structure TableElem where
  tbody : Option (List Row)
deriving DecidableEq

/-- The parsed page markup: the optional `#channels` table and the optional
`ul.pagination` control.  The pagination field is `some nb` when the control
is present, where `nb` is `some classes` when a next button was found
(with its class list) and `none` when not. -/
structure Doc where
  table : Option TableElem
  pagination : Option (Option (List String))
deriving DecidableEq

/-- Outcome of `requests.get` + `raise_for_status` + parsing for one page. -/
inductive FetchResult where
  | failure
  | success (doc : Doc)
deriving DecidableEq

/-- Python `href.startswith('/')`: the target's first character is the path
separator (stated on the character list so the kernel can evaluate it). -/
def isLocalHref (href : String) : Bool :=
  match href.data with
  | [] => false
  | c :: _ => c == '/'

/-! ## src/app.py : page range calculation -/

/-- Integer form of `math.ceil(n / 50)` (exact for the integers the code
handles). -/
def ceilDiv50 (n : Nat) : Nat := (n + 49) / 50

/-- src/app.py `calculate_pages_needed`: `list(range(ceil(start/50),
ceil(end/50) + 1))`. -/
def calculate_pages_needed (start endPos : Nat) : List Nat :=
  List.range' (ceilDiv50 start) (ceilDiv50 endPos + 1 - ceilDiv50 start)

/-! ## src/app.py : range extractor -/

/-- src/app.py inner link loop (lines 96-103): scan the row's links in order;
the first one with non-empty text, a local (`/`-prefixed) target and text not
already accumulated is appended, then the loop breaks to the next row. -/
def processRowRange (acc : List String) : Row → List String
  | [] => acc
  | l :: rest =>
    if l.text != "" && isLocalHref l.href && !acc.contains l.text
    then acc ++ [l.text]
    else processRowRange acc rest

/-- Observable state threaded through the page loop of
`scrape_usernames_range`: accumulated usernames, politeness delays performed
(`time.sleep(1)` calls) and fetches attempted. -/
structure RangeState where
  all : List String
  sleeps : Nat
  fetches : Nat
deriving DecidableEq

/-- One iteration of the page loop of src/app.py `scrape_usernames_range`
(lines 59-105).  A failed fetch, a missing table or a missing tbody hits a
`continue`, which skips the `time.sleep(1)` at the end of the loop body. -/
def stepPageRange (fetch : Nat → FetchResult) (st : RangeState) (page : Nat) :
    RangeState :=
  match fetch page with
  | .failure => { st with fetches := st.fetches + 1 }
  | .success doc =>
    match doc.table with
    | none => { st with fetches := st.fetches + 1 }
    | some tb =>
      match tb.tbody with
      | none => { st with fetches := st.fetches + 1 }
      | some rows =>
        { all := rows.foldl processRowRange st.all,
          sleeps := st.sleeps + 1,
          fetches := st.fetches + 1 }

/-- Result of one range-extractor run: the returned slice, the accumulated
list, and the observed effects. -/
structure RangeRun where
  result : List String
  allUsernames : List String
  sleeps : Nat
  fetches : Nat
deriving DecidableEq

/-- src/app.py `scrape_usernames_range` (lines 34-116): fetch the pages given
by `calculate_pages_needed`, accumulate usernames, then return
`all_usernames[start-1:end]` (empty when `start - 1 >= len(all_usernames)`). -/
def scrape_usernames_range (fetch : Nat → FetchResult) (start endPos : Nat) :
    RangeRun :=
  let pages := calculate_pages_needed start endPos
  let st := pages.foldl (stepPageRange fetch) ⟨[], 0, 0⟩
  let result :=
    if start - 1 < st.all.length
    then (st.all.drop (start - 1)).take (endPos + 1 - start)
    else []
  ⟨result, st.all, st.sleeps, st.fetches⟩

/-! ## CSV generation (csv.writer, default `excel` dialect) -/

/-- Python `csv.writer` QUOTE_MINIMAL: a field is quoted when it contains the
delimiter, the quote character, or a character of the `\r\n` line
terminator. -/
def csvNeedsQuote (s : String) : Bool :=
  s.data.any (fun c => c = ',' || c = '"' || c = '\r' || c = '\n')

/-- Double every quote character of a field (csv quoting). -/
def csvEscape (s : String) : String :=
  ⟨s.data.foldr (fun c acc => if c = '"' then '"' :: '"' :: acc else c :: acc) []⟩

/-- One csv field, minimally quoted. -/
def csvField (s : String) : String :=
  if csvNeedsQuote s then "\"" ++ csvEscape s ++ "\"" else s

/-- `writer.writerow(fields)`: comma-joined fields plus the `\r\n`
terminator of the default dialect. -/
def csvWriterow (fields : List String) : String :=
  String.intercalate "," (fields.map csvField) ++ "\r\n"

/-- The CSV text both sinks produce (src/app.py lines 161-165, src/scraper.py
lines 108-112): header row `twitch_username`, then one row per username. -/
def generate_csv (usernames : List String) : String :=
  csvWriterow ["twitch_username"] ++
    String.join (usernames.map (fun u => csvWriterow [u]))

/-! ## src/scraper.py : full extractor -/

/-- src/scraper.py safety limit (line 28). -/
def max_pages : Nat := 100

/-- src/scraper.py row handling (lines 72-82): only the row's first hyperlink
(`row.find('a', href=True)`) is examined; its text is appended to both
`page_usernames` (first component) and `usernames` (second component) when it
is non-empty, the target is local, and the text is not yet accumulated. -/
def processRowFull (st : List String × List String) (row : Row) :
    List String × List String :=
  match row.head? with
  | none => st
  | some l =>
    if l.text != "" && isLocalHref l.href && !st.2.contains l.text
    then (st.1 ++ [l.text], st.2 ++ [l.text])
    else st

/-- The `while page <= max_pages` loop of src/scraper.py `scrape_usernames`
(lines 32-102), with an explicit structural fuel (always called with more
fuel than the guard permits iterations, so the fuel never runs out).  Returns
the accumulated usernames and the number of fetch attempts. -/
def fullLoop (fetch : Nat → FetchResult) :
    Nat → Nat → List String → Nat → List String × Nat
  | 0, _, usernames, fetches => (usernames, fetches)
  | fuel + 1, page, usernames, fetches =>
    if page > max_pages then (usernames, fetches)
    else
      match fetch page with
      | .failure => (usernames, fetches + 1)
      | .success doc =>
        match doc.table with
        | none => (usernames, fetches + 1)
        | some tb =>
          match tb.tbody with
          | none => (usernames, fetches + 1)
          | some rows =>
            if rows.isEmpty then (usernames, fetches + 1)
            else
              let st := rows.foldl processRowFull ([], usernames)
              if st.1.isEmpty then (st.2, fetches + 1)
              else
                let cont :=
                  match doc.pagination with
                  | some nextButton =>
                    match nextButton with
                    | none => false
                    | some classes => !classes.contains "disabled"
                  | none => decide (25 ≤ st.1.length)
                if cont then fullLoop fetch fuel (page + 1) st.2 (fetches + 1)
                else (st.2, fetches + 1)

/-- Result of one full-extractor run: the returned list, the number of fetch
attempts, and the CSV text written to the output file. -/
structure FullRun where
  usernames : List String
  fetches : Nat
  csv : String
deriving DecidableEq

/-- src/scraper.py `scrape_usernames` (lines 14-115): run the page walk from
page 1, then write the CSV (header plus one row per username) and return the
accumulated list. -/
def scrape_usernames (fetch : Nat → FetchResult) : FullRun :=
  let r := fullLoop fetch (max_pages + 1) 1 [] 0
  ⟨r.1, r.2, generate_csv r.1⟩

/-! ## src/app.py : Flask routes -/

/-- The JSON success payload of the `/scrape` route (lines 138-142). -/
structure SuccessPayload where
  success : Bool
  count : Nat
  usernames : List String
deriving DecidableEq

/-- Outcome of the `/scrape` route: the success payload (status 200) or the
status-400 invalid-range error. -/
inductive ScrapeHttpResult where
  | payload (p : SuccessPayload)
  | badRequest
deriving DecidableEq

/-- src/app.py `scrape` route (lines 125-144), with the number of page
fetches it caused alongside the response.  Validation happens before any
fetch. -/
def scrape_route (fetch : Nat → FetchResult) (start endPos : Int)
    (_language : Option String) : ScrapeHttpResult × Nat :=
  if start < 1 ∨ endPos < start then (.badRequest, 0)
  else
    let run := scrape_usernames_range fetch start.toNat endPos.toNat
    (.payload ⟨true, run.result.length, run.result⟩, run.fetches)

/-- Outcome of the `/download` route: a CSV attachment (status 200) or the
status-400 invalid-range error. -/
inductive DownloadHttpResult where
  | file (filename : String) (content : String)
  | badRequest
deriving DecidableEq

/-- src/app.py `download` route (lines 147-182), with the number of page
fetches it caused alongside the response. -/
def download_route (fetch : Nat → FetchResult) (start endPos : Int)
    (language : Option String) : DownloadHttpResult × Nat :=
  if start < 1 ∨ endPos < start then (.badRequest, 0)
  else
    let run := scrape_usernames_range fetch start.toNat endPos.toNat
    let lang_suffix := match language with | some l => "_" ++ l | none => ""
    let filename :=
      "twitch_usernames_" ++ toString start ++ "_" ++ toString endPos ++
        lang_suffix ++ ".csv"
    (.file filename (generate_csv run.result), run.fetches)

/-! ## Specification-side definitions and concrete environments -/

/-- As the spec words it (claim C2, both extractors): a row's username is the
visible text of the first hyperlink in document order whose text is non-empty
and whose target begins with `/`. -/
def claimRowUsername (row : Row) : Option String :=
  (row.find? (fun l => l.text != "" && isLocalHref l.href)).map (·.text)

/-- Amended row selection of the Range extractor: first hyperlink with
non-empty text, local target, and text not already accumulated. -/
def rowUsernameRange (acc : List String) (row : Row) : Option String :=
  (row.find? (fun l =>
    l.text != "" && isLocalHref l.href && !acc.contains l.text)).map (·.text)

/-- Amended row selection of the Full extractor: only the row's first
hyperlink is examined; it contributes its text when that text is non-empty,
the target is local, and the text is not already accumulated. -/
def rowUsernameFull (acc : List String) (row : Row) : Option String :=
  row.head?.bind (fun l =>
    if l.text != "" && isLocalHref l.href && !acc.contains l.text
    then some l.text
    else none)

/-- Whether a page iteration of the Range extractor reaches the
`time.sleep(1)` call: the fetch succeeded and the markup had the table and
its body. -/
def pageSlept : FetchResult → Bool
  | .failure => false
  | .success doc =>
    match doc.table with
    | none => false
    | some tb => tb.tbody.isSome

/-- A data source that presents the items of `source` 50 per 1-indexed page
in stable order, each item as a row holding one local hyperlink. -/
def sourceFetch (source : List String) (n : Nat) : FetchResult :=
  .success ⟨some ⟨some (((source.drop ((n - 1) * 50)).take 50).map
    (fun u => [⟨u, "/" ++ u⟩]))⟩, none⟩

/-- 51 distinct usernames `u0` .. `u50`. -/
def src51 : List String := (List.range 51).map (fun i => "u" ++ toString i)

/-- An environment where every fetch fails. -/
def failFetch : Nat → FetchResult := fun _ => .failure

/-- An environment where every page parses but has no `#channels` table. -/
def noTableFetch : Nat → FetchResult := fun _ => .success ⟨none, none⟩

/-- An adversarial source: every page parses, yields one page-unique
username, and shows a pagination control whose next button is present and
never disabled. -/
def advFetch (n : Nat) : FetchResult :=
  .success ⟨some ⟨some [[⟨"p" ++ toString n, "/p" ++ toString n⟩]]⟩,
    some (some [])⟩

/-- A source whose single item's text contains a comma. -/
def commaFetch : Nat → FetchResult :=
  fun _ => .success ⟨some ⟨some [[⟨"a,b", "/ab"⟩]]⟩, none⟩

/-! # Theorems -/

/-! ## Helper lemmas -/

theorem processRowRange_eq_append (acc : List String) (row : Row) :
    ∃ t, processRowRange acc row = acc ++ t := by
  induction row with
  | nil => exact ⟨[], by simp [processRowRange]⟩
  | cons l rest ih =>
    by_cases h : (l.text != "" && isLocalHref l.href && !acc.contains l.text) = true
    · exact ⟨[l.text], by simp only [processRowRange]; rw [if_pos h]⟩
    · obtain ⟨t, ht⟩ := ih
      exact ⟨t, by simp only [processRowRange]; rw [if_neg h]; exact ht⟩

theorem processRowRange_nodup {acc : List String} (row : Row) (h : acc.Nodup) :
    (processRowRange acc row).Nodup := by
  induction row with
  | nil => simpa [processRowRange] using h
  | cons l rest ih =>
    by_cases hc : (l.text != "" && isLocalHref l.href && !acc.contains l.text) = true
    · have hmem : l.text ∉ acc := by
        have := hc
        simp only [Bool.and_eq_true, Bool.not_eq_true'] at this
        simpa using this.2
      simp only [processRowRange, if_pos hc]
      simp [List.nodup_append, h, hmem]
    · simpa only [processRowRange, if_neg hc] using ih

theorem foldl_processRowRange_eq_append (rows : List Row) :
    ∀ acc : List String, ∃ t, rows.foldl processRowRange acc = acc ++ t := by
  induction rows with
  | nil => exact fun acc => ⟨[], by simp⟩
  | cons r rs ih =>
    intro acc
    obtain ⟨t1, ht1⟩ := processRowRange_eq_append acc r
    obtain ⟨t2, ht2⟩ := ih (processRowRange acc r)
    rw [ht1] at ht2
    exact ⟨t1 ++ t2, by simp only [List.foldl_cons, ht1, ht2, List.append_assoc]⟩

theorem foldl_processRowRange_nodup (rows : List Row) :
    ∀ {acc : List String}, acc.Nodup → (rows.foldl processRowRange acc).Nodup := by
  induction rows with
  | nil => exact fun h => by simpa
  | cons r rs ih =>
    intro acc h
    exact ih (processRowRange_nodup r h)

theorem foldl_stepPageRange_nodup (fetch : Nat → FetchResult) (pages : List Nat) :
    ∀ {st : RangeState}, st.all.Nodup →
      ((pages.foldl (stepPageRange fetch) st).all).Nodup := by
  induction pages with
  | nil => exact fun h => by simpa
  | cons p ps ih =>
    intro st h
    refine ih ?_
    cases hf : fetch p with
    | failure => simpa [stepPageRange, hf]
    | success doc =>
      cases ht : doc.table with
      | none => simpa [stepPageRange, hf, ht]
      | some tb =>
        cases hb : tb.tbody with
        | none => simpa [stepPageRange, hf, ht, hb]
        | some rows =>
          simpa [stepPageRange, hf, ht, hb] using
            foldl_processRowRange_nodup rows h

theorem processRowFull_eq_append (st : List String × List String) (row : Row) :
    ∃ t, (processRowFull st row).1 = st.1 ++ t ∧ (processRowFull st row).2 = st.2 ++ t := by
  cases hh : row.head? with
  | none => exact ⟨[], by simp [processRowFull, hh]⟩
  | some l =>
    by_cases hc : (l.text != "" && isLocalHref l.href && !st.2.contains l.text) = true
    · refine ⟨[l.text], ?_⟩
      simp only [processRowFull, hh]
      rw [if_pos hc]
      exact ⟨rfl, rfl⟩
    · refine ⟨[], ?_⟩
      simp only [processRowFull, hh]
      rw [if_neg hc]
      simp

theorem processRowFull_nodup {st : List String × List String} (row : Row)
    (h : st.2.Nodup) : ((processRowFull st row).2).Nodup := by
  cases hh : row.head? with
  | none => simpa [processRowFull, hh]
  | some l =>
    by_cases hc : (l.text != "" && isLocalHref l.href && !st.2.contains l.text) = true
    · have hmem : l.text ∉ st.2 := by
        have := hc
        simp only [Bool.and_eq_true, Bool.not_eq_true'] at this
        simpa using this.2
      simp only [processRowFull, hh]
      rw [if_pos hc]
      simp [List.nodup_append, h, hmem]
    · simp only [processRowFull, hh]
      rw [if_neg hc]
      exact h

theorem foldl_processRowFull_nodup (rows : List Row) :
    ∀ {st : List String × List String}, st.2.Nodup →
      ((rows.foldl processRowFull st).2).Nodup := by
  induction rows with
  | nil => exact fun h => by simpa
  | cons r rs ih =>
    intro st h
    exact ih (processRowFull_nodup r h)

theorem foldl_stepPageRange_sleeps (fetch : Nat → FetchResult) (pages : List Nat) :
    ∀ st : RangeState,
      (pages.foldl (stepPageRange fetch) st).sleeps
        = st.sleeps + (pages.filter (fun n => pageSlept (fetch n))).length := by
  induction pages with
  | nil => intro st; simp
  | cons p ps ih =>
    intro st
    cases hf : fetch p with
    | failure =>
      simp [List.foldl_cons, stepPageRange, hf, ih, List.filter_cons, pageSlept]
    | success doc =>
      cases ht : doc.table with
      | none =>
        simp [List.foldl_cons, stepPageRange, hf, ht, ih, List.filter_cons, pageSlept]
      | some tb =>
        cases hb : tb.tbody with
        | none =>
          simp [List.foldl_cons, stepPageRange, hf, ht, hb, ih, List.filter_cons,
            pageSlept]
        | some rows =>
          simp only [List.foldl_cons, stepPageRange, hf, ht, hb, ih,
            List.filter_cons, pageSlept, Option.isSome_some, if_pos]
          simp [Nat.add_comm, Nat.add_assoc, Nat.add_left_comm]

theorem fullLoop_fetches_le (fetch : Nat → FetchResult) :
    ∀ (fuel page : Nat) (us : List String) (fs : Nat),
      (fullLoop fetch fuel page us fs).2 ≤ fs + (max_pages + 1 - page) := by
  intro fuel
  induction fuel with
  | zero => intro page us fs; simp [fullLoop]
  | succ n ih =>
    intro page us fs
    simp only [fullLoop]
    split
    · exact Nat.le_add_right _ _
    · rename_i hp
      simp only [max_pages] at hp ⊢
      split
      · omega
      · split
        · omega
        · split
          · omega
          · split
            · omega
            · split
              · dsimp only
                omega
              · split
                · refine Nat.le_trans (ih (page + 1) _ (fs + 1)) ?_
                  simp only [max_pages]
                  omega
                · dsimp only
                  omega

theorem fullLoop_nodup (fetch : Nat → FetchResult) :
    ∀ (fuel page : Nat) (us : List String) (fs : Nat), us.Nodup →
      ((fullLoop fetch fuel page us fs).1).Nodup := by
  intro fuel
  induction fuel with
  | zero => intro page us fs h; simpa [fullLoop]
  | succ n ih =>
    intro page us fs h
    have hfold : ∀ rows : List Row,
        (((rows.foldl processRowFull ([], us))).2).Nodup :=
      fun rows => foldl_processRowFull_nodup rows h
    simp only [fullLoop]
    split
    · exact h
    · split
      · exact h
      · split
        · exact h
        · split
          · exact h
          · split
            · exact h
            · split
              · exact hfold _
              · split
                · exact ih (page + 1) _ (fs + 1) (hfold _)
                · exact hfold _



/-! ## Claim theorems -/

/-- C3: for all integers start, end with 1 <= start <= end,
`calculate_pages_needed start end` is exactly the contiguous list of page
numbers `ceil(start/50)` through `ceil(end/50)` inclusive, where
`ceilDiv50` is characterised as the least `p` with `n <= 50 * p`;
e.g. (1, 150) yields [1, 2, 3] and (51, 51) yields [2]. -/
theorem c3_page_range (start endPos : Nat) (_h1 : 1 ≤ start) (h2 : start ≤ endPos) :
    (∀ p, p ∈ calculate_pages_needed start endPos ↔
        ceilDiv50 start ≤ p ∧ p ≤ ceilDiv50 endPos) ∧
    (calculate_pages_needed start endPos).length
        = ceilDiv50 endPos + 1 - ceilDiv50 start ∧
    (∀ (i : Nat) (h : i < (calculate_pages_needed start endPos).length),
        (calculate_pages_needed start endPos)[i] = ceilDiv50 start + i) ∧
    (start ≤ 50 * ceilDiv50 start ∧ ∀ m, start ≤ 50 * m → ceilDiv50 start ≤ m) ∧
    (endPos ≤ 50 * ceilDiv50 endPos ∧ ∀ m, endPos ≤ 50 * m → ceilDiv50 endPos ≤ m) ∧
    calculate_pages_needed 1 150 = [1, 2, 3] ∧
    calculate_pages_needed 51 51 = [2] := by
  have hmono : ceilDiv50 start ≤ ceilDiv50 endPos := by
    simp only [ceilDiv50]
    omega
  refine ⟨?_, ?_, ?_, ⟨?_, ?_⟩, ⟨?_, ?_⟩, by decide, by decide⟩
  · intro p
    simp only [calculate_pages_needed, List.mem_range']
    constructor
    · rintro ⟨i, hi, rfl⟩
      omega
    · rintro ⟨ha, hb⟩
      exact ⟨p - ceilDiv50 start, by omega, by omega⟩
  · simp [calculate_pages_needed]
  · intro i h
    simp [calculate_pages_needed]
  · simp only [ceilDiv50]; omega
  · intro m hm; simp only [ceilDiv50]; omega
  · simp only [ceilDiv50]; omega
  · intro m hm; simp only [ceilDiv50]; omega

/-- Witness for C3 at concrete inputs: the two examples of the claim. -/
theorem c3_page_range_witness :
    calculate_pages_needed 1 150 = [1, 2, 3] ∧
    calculate_pages_needed 51 51 = [2] :=
  ⟨(c3_page_range 1 150 (by decide) (by decide)).2.2.2.2.2.1,
   (c3_page_range 1 150 (by decide) (by decide)).2.2.2.2.2.2⟩

/-- C1: the claim says the Range Extractor returns exactly the source's
items at 1-indexed positions start..end.  The code instead slices the
accumulated list (which begins at the first item of the first fetched page)
by the absolute index start-1.  Evaluated on a 51-item source presented 50
per page with start = end = 51: the minimal page set [2] is fetched and item
51 ("u50") is accumulated, yet the function returns [] instead of ["u50"]. -/
theorem c1_range_slice_bug :
    src51.length = 51 ∧ src51.Nodup ∧ src51[50]? = some "u50" ∧
    (scrape_usernames_range (sourceFetch src51) 51 51).allUsernames = ["u50"] ∧
    (scrape_usernames_range (sourceFetch src51) 51 51).result = [] := by decide

/-- C2 counterexample: a row whose first hyperlink has empty text (an image
link) and whose second hyperlink is the username link.  The spec's selection
rule picks "Alice"; the Full Extractor, which examines only the row's first
hyperlink, contributes nothing (and a whole run over a page of such rows
returns no usernames). -/
theorem c2_first_link_counterexample :
    claimRowUsername [⟨"", "/img"⟩, ⟨"Alice", "/alice"⟩] = some "Alice" ∧
    processRowFull ([], []) [⟨"", "/img"⟩, ⟨"Alice", "/alice"⟩] = ([], []) ∧
    (scrape_usernames (fun _ =>
        .success ⟨some ⟨some [[⟨"", "/img"⟩, ⟨"Alice", "/alice"⟩]]⟩, none⟩)).usernames
      = [] := by decide

/-- C2 amended: the Range Extractor selects, per row, the first hyperlink in
document order with non-empty text, a local (`/`-prefixed) target, and text
not already accumulated; the Full Extractor examines only the row's first
hyperlink and contributes its text exactly when it has non-empty text, a
local target, and is not already accumulated.  Rows with no such
contribution yield zero usernames (the functions are total). -/
theorem c2_row_selection (acc pu : List String) (row : Row) :
    processRowRange acc row = acc ++ (rowUsernameRange acc row).toList ∧
    processRowFull (pu, acc) row =
      (pu ++ (rowUsernameFull acc row).toList,
       acc ++ (rowUsernameFull acc row).toList) := by
  constructor
  · induction row with
    | nil => simp [processRowRange, rowUsernameRange]
    | cons l rest ih =>
      by_cases h : (l.text != "" && isLocalHref l.href && !acc.contains l.text) = true
      · have hf : List.find?
            (fun x => x.text != "" && isLocalHref x.href && !acc.contains x.text)
            (l :: rest) = some l := List.find?_cons_of_pos _ h
        simp only [processRowRange, rowUsernameRange, hf]
        rw [if_pos h]
        simp
      · have hf : List.find?
            (fun x => x.text != "" && isLocalHref x.href && !acc.contains x.text)
            (l :: rest)
            = List.find?
              (fun x => x.text != "" && isLocalHref x.href && !acc.contains x.text)
              rest := List.find?_cons_of_neg _ h
        simp only [processRowRange, rowUsernameRange, hf]
        rw [if_neg h]
        simpa only [rowUsernameRange] using ih
  · cases row with
    | nil => simp [processRowFull, rowUsernameFull]
    | cons l rest =>
      simp only [processRowFull, rowUsernameFull, List.head?_cons, Option.some_bind]
      by_cases h : (l.text != "" && isLocalHref l.href && !acc.contains l.text) = true
      · rw [if_pos h, if_pos h]
        simp
      · rw [if_neg h, if_neg h]
        simp

/-- C4: in every extraction run (Range or Full) the accumulated list and the
returned result are duplicate-free, and row processing only ever appends to
the running list, so every username keeps the position of its first
discovery and the result preserves page-then-row discovery order. -/
theorem c4_no_duplicates :
    (∀ (fetch : Nat → FetchResult) (start endPos : Nat),
        (scrape_usernames_range fetch start endPos).allUsernames.Nodup ∧
        (scrape_usernames_range fetch start endPos).result.Nodup) ∧
    (∀ fetch : Nat → FetchResult, (scrape_usernames fetch).usernames.Nodup) ∧
    (∀ (acc : List String) (row : Row),
        ∃ t, processRowRange acc row = acc ++ t) ∧
    (∀ (st : List String × List String) (row : Row),
        ∃ t, (processRowFull st row).2 = st.2 ++ t) := by
  refine ⟨?_, ?_, processRowRange_eq_append,
    fun st row => ⟨(processRowFull_eq_append st row).choose,
      (processRowFull_eq_append st row).choose_spec.2⟩⟩
  · intro fetch start endPos
    have hall : ((calculate_pages_needed start endPos).foldl
        (stepPageRange fetch) ⟨[], 0, 0⟩).all.Nodup :=
      foldl_stepPageRange_nodup fetch _ (by simp)
    constructor
    · exact hall
    · simp only [scrape_usernames_range]
      split
      · exact ((List.take_sublist _ _).trans (List.drop_sublist _ _)).nodup hall
      · simp
  · intro fetch
    exact fullLoop_nodup fetch _ 1 [] 0 (by simp)

/-- C5 counterexample: with the one-page set [1] whose fetch fails, the page
is processed (one fetch attempt) but no politeness delay is performed,
contradicting "the number of delays equals the number of pages processed,
including pages whose fetch failed". -/
theorem c5_no_sleep_on_failed_fetch :
    (calculate_pages_needed 1 1).length = 1 ∧
    (scrape_usernames_range failFetch 1 1).fetches = 1 ∧
    (scrape_usernames_range failFetch 1 1).sleeps = 0 := by decide

/-- C5 amended: in Range mode, the politeness delay is performed exactly
after the pages whose fetch succeeded and whose markup contained the results
table and its body; pages whose fetch failed or whose markup lacked the
table or body skip the delay (`continue` jumps over `time.sleep(1)`). -/
theorem c5_sleeps_count (fetch : Nat → FetchResult) (start endPos : Nat) :
    (scrape_usernames_range fetch start endPos).sleeps
      = ((calculate_pages_needed start endPos).filter
          (fun n => pageSlept (fetch n))).length := by
  simpa [scrape_usernames_range] using
    foldl_stepPageRange_sleeps fetch (calculate_pages_needed start endPos) ⟨[], 0, 0⟩

set_option maxRecDepth 40000 in
/-- C6: the Full Extractor terminates on every page-response sequence (it is
a total function) fetching at most `max_pages = 100` pages; on the
adversarial source whose every page parses, yields a fresh username, and
shows a never-disabled next control, exactly 100 pages are fetched. -/
theorem c6_walk_bounded :
    (∀ fetch : Nat → FetchResult, (scrape_usernames fetch).fetches ≤ max_pages) ∧
    (scrape_usernames advFetch).fetches = max_pages := by
  constructor
  · intro fetch
    have h := fullLoop_fetches_le fetch (max_pages + 1) 1 [] 0
    simpa [scrape_usernames] using h
  · decide

/-- C7: both service operations reject start < 1 or end < start with the
client-error response and zero page fetches; validation passes (no client
error) whenever start >= 1 and end >= start. -/
theorem c7_validation (fetch : Nat → FetchResult) (start endPos : Int)
    (language : Option String) :
    ((start < 1 ∨ endPos < start) →
        scrape_route fetch start endPos language = (.badRequest, 0) ∧
        download_route fetch start endPos language = (.badRequest, 0)) ∧
    (1 ≤ start → start ≤ endPos →
        (scrape_route fetch start endPos language).1 ≠ .badRequest ∧
        (download_route fetch start endPos language).1 ≠ .badRequest) := by
  constructor
  · intro h
    constructor
    · simp only [scrape_route]
      rw [if_pos h]
    · simp only [download_route]
      rw [if_pos h]
  · intro h1 h2
    have h : ¬(start < 1 ∨ endPos < start) := by omega
    constructor
    · simp only [scrape_route]
      rw [if_neg h]
      simp
    · simp only [download_route]
      rw [if_neg h]
      simp

/-- Witness for C7: an invalid request (start = 0) is rejected with no
fetch, and a valid request (1, 5) passes validation. -/
theorem c7_validation_witness :
    scrape_route failFetch 0 5 none = (.badRequest, 0) ∧
    (scrape_route failFetch 1 5 none).1 ≠ .badRequest :=
  ⟨((c7_validation failFetch 0 5 none).1 (by decide)).1,
   ((c7_validation failFetch 1 5 none).2 (by decide) (by decide)).1⟩

/-- C8 counterexample: the claim says the CSV consists of exactly the header
line followed by one line per username.  An extracted username may contain a
comma (link text is arbitrary); `csv.writer` then quotes the field, so the
produced line is `"a,b"`, not the username `a,b` itself — both at the CSV
generator and through the whole download operation. -/
theorem c8_quoting_counterexample :
    generate_csv ["a,b"] = "twitch_username\r\n\"a,b\"\r\n" ∧
    generate_csv ["a,b"] ≠ "twitch_username" ++ "\r\n" ++ "a,b" ++ "\r\n" ∧
    (download_route commaFetch 1 1 none).1 =
      .file "twitch_usernames_1_1.csv" "twitch_username\r\n\"a,b\"\r\n" := by decide

/-- C8 amended: for every username list whose entries contain no comma,
quote, CR or LF (so `csv.writer` leaves them unquoted), the generated CSV is
exactly the header line `twitch_username` followed by one line per username
in result order, each line terminated by `\r\n`; the code UTF-8-encodes
exactly this text. -/
theorem c8_csv_layout (us : List String)
    (h : ∀ u ∈ us, csvNeedsQuote u = false) :
    generate_csv us =
      "twitch_username" ++ "\r\n" ++
        String.join (us.map (fun u => u ++ "\r\n")) := by
  have hmap : us.map (fun u => csvWriterow [u]) = us.map (fun u => u ++ "\r\n") := by
    apply List.map_congr_left
    intro a ha
    simp [csvWriterow, csvField, h a ha, String.intercalate, String.intercalate.go]
  have hhdr : csvWriterow ["twitch_username"] = "twitch_username" ++ "\r\n" := by
    decide
  simp only [generate_csv, hmap, hhdr]

/-- Witness for C8 at the claim's example list ["Alice", "Bob"]. -/
theorem c8_csv_layout_witness :
    (∀ u ∈ ["Alice", "Bob"], csvNeedsQuote u = false) ∧
    generate_csv ["Alice", "Bob"] =
      "twitch_username" ++ "\r\n" ++
        String.join (["Alice", "Bob"].map (fun u => u ++ "\r\n")) :=
  ⟨by decide, c8_csv_layout ["Alice", "Bob"] (by decide)⟩

/-- C9: every success response of the `/scrape` operation carries
success = true and a count equal to the length of its username list. -/
theorem c9_count_matches (fetch : Nat → FetchResult) (start endPos : Int)
    (language : Option String) (p : SuccessPayload)
    (h : (scrape_route fetch start endPos language).1 = .payload p) :
    p.success = true ∧ p.count = p.usernames.length := by
  by_cases hv : start < 1 ∨ endPos < start
  · simp only [scrape_route] at h
    rw [if_pos hv] at h
    exact absurd h (by simp)
  · simp only [scrape_route] at h
    rw [if_neg hv] at h
    simp only [ScrapeHttpResult.payload.injEq] at h
    subst h
    exact ⟨rfl, rfl⟩

/-- Witness for C9 at a concrete request whose single page fetch fails. -/
theorem c9_count_matches_witness :
    (scrape_route failFetch 1 1 none).1 = .payload ⟨true, 0, []⟩ ∧
    ((true : Bool) = true ∧ (0 : Nat) = ([] : List String).length) :=
  ⟨by decide, c9_count_matches failFetch 1 1 none ⟨true, 0, []⟩ (by decide)⟩

/-- C10: whatever stops the Full Extractor's walk, the CSV written is the
header row followed by exactly the accumulated usernames, and the function
returns that same list; in particular a fetch failure (or a missing table)
on the very first page yields the header-only file and an empty list. -/
theorem c10_csv_always_written :
    (∀ fetch : Nat → FetchResult,
        (scrape_usernames fetch).csv
          = generate_csv (scrape_usernames fetch).usernames) ∧
    (scrape_usernames failFetch).usernames = [] ∧
    (scrape_usernames failFetch).csv = "twitch_username" ++ "\r\n" ∧
    (scrape_usernames noTableFetch).usernames = [] ∧
    (scrape_usernames noTableFetch).csv = "twitch_username" ++ "\r\n" := by
  refine ⟨fun fetch => rfl, by decide, by decide, by decide, by decide⟩
